import Mathlib

/-!
Verification of `ashley_llm_assignment.py`: an SEC EDGAR 8-K scraping pipeline.
We shallowly embed the pure cores of the script's functions over `List Char`
(for text processing) and plain Lean structures (for the JSON shapes), with
network and model calls modelled as explicit oracle parameters and Python
exceptions modelled with `Except Unit`.
-/

set_option maxRecDepth 10000

/-! ### Python string primitives -/

/-- Python whitespace test (`str.isspace` on a single character): the ASCII
whitespace plus every Unicode whitespace code point, including U+1680 (Ogham
space mark). -/
def isPySpace (c : Char) : Bool :=
  c = ' ' || c = '\t' || c = '\n' || c = '\x0d' || c = '\x0b' || c = '\x0c' ||
  c = '\x1c' || c = '\x1d' || c = '\x1e' || c = '\x1f' || c = '\x85' ||
  c = '\xa0' || c.toNat = 0x1680 ||
  (0x2000 ≤ c.toNat && c.toNat ≤ 0x200a) ||
  c = ' ' || c = ' ' || c = ' ' || c = ' ' || c = '　'

/-- Python `str.strip()`: remove leading and trailing whitespace. -/
def pyStrip (s : List Char) : List Char :=
  ((s.dropWhile isPySpace).reverse.dropWhile isPySpace).reverse

/-- Python slice `s[a:b]` for `0 ≤ a`, `0 ≤ b`. -/
def pySlice (s : List Char) (a b : Nat) : List Char :=
  (s.take b).drop a

/-- Python `s.find(pat)`: index of the first occurrence of `pat` in `s`,
`none` standing for Python's `-1`. -/
def strFind (pat : List Char) : List Char → Option Nat
  | [] => if pat.isEmpty then some 0 else none
  | c :: rest =>
    if pat.isPrefixOf (c :: rest) then some 0
    else (strFind pat rest).map (· + 1)

/-- Python `s.find(pat, start)`: first occurrence at index `≥ start`. -/
def strFindFrom (pat s : List Char) (start : Nat) : Option Nat :=
  (strFind pat (s.drop start)).map (· + start)

/-- Python `pat in s` (substring containment test). -/
def pyIn (pat s : List Char) : Bool :=
  (strFind pat s).isSome

/-- Fuel-indexed helper for Python `str.replace`: scans left to right, and on
a match emits the replacement and skips past the matched pattern.  Each step
consumes at least one input character, so fuel equal to the input length makes
the fuel bound unreachable; the fuel only makes the recursion structural. -/
def pyReplaceFuel (pat rep : List Char) : Nat → List Char → List Char
  | 0, _ => []
  | _ + 1, [] => []
  | fuel + 1, c :: rest =>
    if !pat.isEmpty && pat.isPrefixOf (c :: rest) then
      rep ++ pyReplaceFuel pat rep fuel ((c :: rest).drop pat.length)
    else
      c :: pyReplaceFuel pat rep fuel rest

/-- Python `s.replace(pat, rep)` for a non-empty pattern: replace all
non-overlapping occurrences, scanning left to right.  (For an empty pattern
the function returns `s` unchanged; the program only uses non-empty
patterns.) -/
def pyReplace (pat rep : List Char) (s : List Char) : List Char :=
  pyReplaceFuel pat rep s.length s

/-! ### `extract_section` (lines 15–19): markup-to-text normalization -/

/-- Hexadecimal digit test (`0-9a-fA-F`). -/
def isHexDigitCh (c : Char) : Bool :=
  c.isDigit || ('a' ≤ c && c ≤ 'f') || ('A' ≤ c && c ≤ 'F')

/-- Value of a hexadecimal digit. -/
def hexDigitVal (c : Char) : Nat :=
  if c.isDigit then c.toNat - 48
  else if 'a' ≤ c && c ≤ 'f' then c.toNat - 87
  else c.toNat - 55

/-- Numeric value of a decimal digit string. -/
def decToNat (ds : List Char) : Nat :=
  ds.foldl (fun n c => n * 10 + (c.toNat - 48)) 0

/-- Numeric value of a hexadecimal digit string. -/
def hexToNat (ds : List Char) : Nat :=
  ds.foldl (fun n c => n * 16 + hexDigitVal c) 0

/-- Common HTML named character references, as decoded by `html.parser`.
(The full HTML5 table is far larger; only the names below are modelled.
Decoding is triggered only at `'&'`, so the model agrees with the parser on
every ampersand-free text.) -/
def namedCharref (name : List Char) : Option Char :=
  if name = "amp".data then some (Char.ofNat 38)
  else if name = "lt".data then some '<'
  else if name = "gt".data then some '>'
  else if name = "quot".data then some (Char.ofNat 34)
  else if name = "apos".data then some (Char.ofNat 39)
  else if name = "nbsp".data then some (Char.ofNat 0xa0)
  else none

/-- Reads one character reference immediately after a `'&'`: `name;`,
`#digits;` or `#xhex;`.  Returns the decoded character and the remaining
input, or `none` when no reference starts here (the `'&'` then stands for
itself). -/
def matchCharref (s : List Char) : Option (Char × List Char) :=
  match s with
  | '#' :: 'x' :: rest =>
    match rest.dropWhile isHexDigitCh with
    | ';' :: rest' =>
      if (rest.takeWhile isHexDigitCh).isEmpty then none
      else some (Char.ofNat (hexToNat (rest.takeWhile isHexDigitCh)), rest')
    | _ => none
  | '#' :: rest =>
    match rest.dropWhile Char.isDigit with
    | ';' :: rest' =>
      if (rest.takeWhile Char.isDigit).isEmpty then none
      else some (Char.ofNat (decToNat (rest.takeWhile Char.isDigit)), rest')
    | _ => none
  | _ =>
    match namedCharref (s.takeWhile Char.isAlpha), s.dropWhile Char.isAlpha with
    | some c, ';' :: rest' => some (c, rest')
    | _, _ => none

/-- Fuel-indexed character-reference decoding of one text node, as
`html.parser` performs with its default charref conversion: each `'&'` that
begins a recognized reference is replaced by the referenced character, any
other character stands for itself.  Every step consumes at least one input
character, so fuel equal to the input length suffices. -/
def decodeCharrefsFuel : Nat → List Char → List Char
  | 0, _ => []
  | _ + 1, [] => []
  | fuel + 1, c :: rest =>
    if c = Char.ofNat 38 then
      match matchCharref rest with
      | some (d, rest') => d :: decodeCharrefsFuel fuel rest'
      | none => c :: decodeCharrefsFuel fuel rest
    else c :: decodeCharrefsFuel fuel rest

/-- Character-reference decoding of one text node. -/
def decodeCharrefs (s : List Char) : List Char :=
  decodeCharrefsFuel s.length s

/-- Splits raw markup into its text nodes: characters outside `<...>` tags are
accumulated into nodes, a `<` opens a tag whose content up to the next `>` is
discarded (an unterminated tag discards the rest of the input).  This models
`BeautifulSoup(html_content, 'html.parser')` tag handling for the simple
markup this program sees (a stray `'<'` in running text is treated as a tag
opener here; character references inside the nodes are decoded afterwards by
`decodeCharrefs`).  `inTag` is the scanner state and `acc` the (reversed)
current node. -/
def splitNodes (inTag : Bool) (acc : List Char) : List Char → List (List Char)
  | [] => if inTag then [] else [acc.reverse]
  | c :: rest =>
    if inTag then
      if c = '>' then splitNodes false [] rest else splitNodes true acc rest
    else
      if c = '<' then acc.reverse :: splitNodes true [] rest
      else splitNodes false (c :: acc) rest

/-- `soup.get_text(separator=' ', strip=True)`: character references in each
text node are decoded, each node is stripped, empty nodes are dropped, and
the rest are joined with a single space. -/
def get_text (s : List Char) : List Char :=
  List.intercalate [' ']
    ((((splitNodes false [] s).map decodeCharrefs).map pyStrip).filter
      (fun n => !n.isEmpty))

/-- The four single-character glyphs replaced by `extract_section`
(U+00A0, U+2009, U+2002, U+2003) and the checkbox glyph U+2610. -/
def glyphNbsp : Char := '\xa0'

def glyphThin : Char := ' '

def glyphEn : Char := ' '

def glyphEm : Char := ' '

def glyphBox : Char := '☐'

/-- The checkbox pattern `" ☐ "` (space, U+2610, space). -/
def boxPat : List Char := [' ', glyphBox, ' ']

/-- `extract_section(html_content)`: strip markup, then canonicalize the fixed
glyph list to ordinary spaces (source lines 15–19). -/
def extract_section (html_content : List Char) : List Char :=
  pyReplace boxPat [' ']
    (pyReplace [glyphEm] [' ']
      (pyReplace [glyphEn] [' ']
        (pyReplace [glyphThin] [' ']
          (pyReplace [glyphNbsp] [' '] (get_text html_content)))))

/-! ### `extract_product_info` (lines 72–135): LLM-reply parsing -/

/-- The no-product sentinel phrase (source line 101). -/
def sentinel : List Char := "No new product found".data

/-- The product-name anchor (source line 108). -/
def nameAnchor : List Char := "New Product Name:".data

/-- The description anchor (source line 115). -/
def descAnchor : List Char := "Product Description:".data

structure ProductRecord where
  new_product : List Char
  product_description : List Char
deriving Repr, DecidableEq

/-- Name extraction (source lines 108–113): if the anchor is present, the name
is the text from just after the anchor up to the next newline (or end of the
reply), stripped; otherwise `None`. -/
def extractName (r : List Char) : Option (List Char) :=
  match strFind nameAnchor r with
  | none => none
  | some i =>
    let start := i + nameAnchor.length
    let stop := (strFindFrom ['\n'] r start).getD r.length
    some (pyStrip (pySlice r start stop))

/-- Description truncation (source lines 123–124): a (truthy) description
longer than 180 characters becomes its first 177 characters plus `"..."`. -/
def truncateDescription (d : List Char) : List Char :=
  if !d.isEmpty && d.length > 180 then d.take 177 ++ "...".data else d

/-- Description extraction (source lines 115–124): anchored scan to the next
newline, stripped, then truncated. -/
def extractDesc (r : List Char) : Option (List Char) :=
  match strFind descAnchor r with
  | none => none
  | some i =>
    let start := i + descAnchor.length
    let stop := (strFindFrom ['\n'] r start).getD r.length
    some (truncateDescription (pyStrip (pySlice r start stop)))

/-- Python `x or ""` applied to the optional description (source line 129):
`None` and the empty string both collapse to the empty string. -/
def descOrEmpty (d : Option (List Char)) : List Char :=
  match d with
  | none => []
  | some s => if s.isEmpty then [] else s

/-- Parsing of the model's reply (source lines 100–131): the sentinel check
comes first; then the name and description are extracted independently; a
record is returned only when the name is truthy (present and non-empty). -/
def parse_llm_reply (r : List Char) : Option ProductRecord :=
  if pyIn sentinel r then none
  else
    match extractName r with
    | some n =>
      if !n.isEmpty then some ⟨n, descOrEmpty (extractDesc r)⟩ else none
    | none => none

/-- Python falsiness of the `filing_content` argument (source line 73):
`None` or the empty string. -/
def contentFalsy (c : Option (List Char)) : Bool :=
  match c with
  | none => true
  | some s => s.isEmpty

/-- `extract_product_info(filing_content, company_name, ticker)` (source lines
72–135).  The model call is an oracle parameter `llmOutcome`: `.ok r` is a
reply `r`, `.error ()` a raised exception (caught at line 133).  The returned
flag records whether the model endpoint was invoked. -/
def extract_product_info (filing_content : Option (List Char))
    (llmOutcome : Except Unit (List Char)) : Option ProductRecord × Bool :=
  if contentFalsy filing_content then (none, false)
  else
    match llmOutcome with
    | .error _ => (none, true)
    | .ok r => (parse_llm_reply r, true)

/-! ### `get_8k_filings` (lines 22–46): filing-index fetch and filtering -/

/-- The `filings.recent` object: parallel arrays keyed by `'form'`,
`'filingDate'`, `'accessionNumber'`, each possibly missing (the code reads
them with `.get(key, [])`). -/
structure RecentFilings where
  form : Option (List String)
  filingDate : Option (List String)
  accessionNumber : Option (List String)

/-- The `filings` object, with a possibly missing `'recent'` key. -/
structure Filings where
  recent : Option RecentFilings

/-- The decoded index response, with a possibly missing `'filings'` key. -/
structure FilingsData where
  filings : Option Filings

/-- `[i for i, form in enumerate(forms) if form == '8-K']` (source line 34). -/
def formIndices (forms : List String) : List Nat :=
  ((List.enum forms).filter (fun p => p.2 == "8-K")).map Prod.fst

/-- Python list comprehension `[xs[i] for i in idxs]`: `none` models the
`IndexError` raised when some index is out of range. -/
def getAll (xs : List String) : List Nat → Option (List String)
  | [] => some []
  | i :: is' =>
    match xs.get? i, getAll xs is' with
    | some x, some ys => some (x :: ys)
    | _, _ => none

/-- The `try:` body of `get_8k_filings` (source lines 25–43).  The HTTP
request, status check and JSON decoding are modelled by the oracle argument:
`.error ()` is any raised transport/decoding exception, `.ok fd` a decoded
body.  An `IndexError` from the comprehensions propagates as `.error ()`. -/
def get_8k_filings_body (resp : Except Unit FilingsData) :
    Except Unit (List (String × String)) :=
  match resp with
  | .error e => .error e
  | .ok fd =>
    match fd.filings with
    | none => .ok []
    | some fl =>
      match fl.recent with
      | none => .ok []
      | some r =>
        let idxs := formIndices (r.form.getD [])
        if idxs.isEmpty then .ok []
        else
          match getAll (r.filingDate.getD []) idxs,
                getAll (r.accessionNumber.getD []) idxs with
          | some ds, some ans => .ok (ds.zip ans)
          | _, _ => .error ()

/-- `get_8k_filings(cik)` (source lines 22–46): the `except` clause maps any
raised exception to the empty list (after printing). -/
def get_8k_filings (resp : Except Unit FilingsData) : List (String × String) :=
  match get_8k_filings_body resp with
  | .ok l => l
  | .error _ => []

/-! ### Pipeline driver (lines 140–191) -/

/-- One row of the company table (`cik_str`, `ticker`, `title`). -/
structure CompanyRef where
  cik : String
  ticker : String
  title : String

/-- One row of `results_df` (source lines 177–183). -/
structure ResultRow where
  company_name : String
  stock_name : String
  filing_time : String
  new_product : List Char
  product_description : List Char
deriving DecidableEq

/-- A filing reference as returned by `get_8k_filings`:
`(filing_date, accession_number)`. -/
def FilingRef := String × String

/-- `filings[:5]` (source line 166): the per-company cap on processed
filings. -/
def selectedFilings (filings : List FilingRef) : List FilingRef :=
  filings.take 5

/-- The row appended for a successful extraction (source lines 177–183). -/
def mkRow (c : CompanyRef) (f : FilingRef) (rec : ProductRecord) : ResultRow :=
  ⟨c.title, c.ticker, f.1, rec.new_product, rec.product_description⟩

/-- The extraction outcome for one `(company, filing)` pair: filing content
comes from the content oracle and the model reply from the LLM oracle, and
`extract_product_info` is applied (source lines 170–173). -/
def extractFor (getContent : CompanyRef → FilingRef → Option (List Char))
    (llm : CompanyRef → FilingRef → Except Unit (List Char))
    (c : CompanyRef) (f : FilingRef) : Option ProductRecord :=
  (extract_product_info (getContent c f) (llm c f)).1

/-- The body of the inner filing loop (source lines 166–187): a row is
appended exactly when extraction yielded a record. -/
def processFiling (getContent : CompanyRef → FilingRef → Option (List Char))
    (llm : CompanyRef → FilingRef → Except Unit (List Char))
    (c : CompanyRef) (rows : List ResultRow) (f : FilingRef) :
    List ResultRow :=
  match extractFor getContent llm c f with
  | some rec => rows ++ [mkRow c f rec]
  | none => rows

/-- The body of the outer company loop (source lines 157–187): fetch the
index, cap at 5 filings, process each in order. -/
def processCompany (getFilings : CompanyRef → List FilingRef)
    (getContent : CompanyRef → FilingRef → Option (List Char))
    (llm : CompanyRef → FilingRef → Except Unit (List Char))
    (rows : List ResultRow) (c : CompanyRef) : List ResultRow :=
  (selectedFilings (getFilings c)).foldl (processFiling getContent llm c) rows

/-- The whole driver (source lines 157–191): fold the company loop over the
company list, starting from the empty `results_df`. -/
def runDriver (getFilings : CompanyRef → List FilingRef)
    (getContent : CompanyRef → FilingRef → Option (List Char))
    (llm : CompanyRef → FilingRef → Except Unit (List Char))
    (companies : List CompanyRef) : List ResultRow :=
  companies.foldl (processCompany getFilings getContent llm) []

/-! ### Specification-side definitions used to state the claims -/

/-- `pat` occurs as a contiguous substring of `s`. -/
def OccursIn (pat s : List Char) : Prop :=
  ∃ t₁ t₂ : List Char, s = t₁ ++ pat ++ t₂

/-- The match positions of `"8-K"` in a form list, defined recursively; proved
equal to `formIndices` below. -/
def matchIdx : List String → List Nat
  | [] => []
  | x :: xs =>
    if x == "8-K" then 0 :: (matchIdx xs).map (· + 1)
    else (matchIdx xs).map (· + 1)

/-- The entries of `ds` at positions where the parallel list `fs` holds
`"8-K"`: the specification-side description of the index filtering. -/
def selectMatching (fs ds : List String) : List String :=
  ((fs.zip ds).filter (fun p => p.1 == "8-K")).map Prod.snd

/-- Fixture company for driver witnesses. -/
def wCompany : CompanyRef := ⟨"0000320193", "AAPL", "Apple Inc."⟩

/-- Fixture index oracle: one qualifying filing. -/
def wFilings : CompanyRef → List FilingRef := fun _ => [("2024-01-01", "acc-1")]

/-- Fixture content oracle. -/
def wContent : CompanyRef → FilingRef → Option (List Char) :=
  fun _ _ => some "some filing text".data

/-- Fixture LLM oracle: a reply with a product name and description. -/
def wLLM : CompanyRef → FilingRef → Except Unit (List Char) :=
  fun _ _ => .ok "New Product Name: Widget\nProduct Description: Small".data

/-! ### Helper lemmas -/

theorem isPrefixOf_true_iff (l₁ l₂ : List Char) :
    l₁.isPrefixOf l₂ = true ↔ ∃ t, l₂ = l₁ ++ t := by
  induction l₁ generalizing l₂ with
  | nil => simp [List.isPrefixOf]
  | cons a as ih =>
    cases l₂ with
    | nil => simp [List.isPrefixOf]
    | cons b bs =>
      simp only [List.isPrefixOf, Bool.and_eq_true, beq_iff_eq, ih,
        List.cons_append, List.cons.injEq]
      constructor
      · rintro ⟨hab, t, hbs⟩
        exact ⟨t, hab.symm, hbs⟩
      · rintro ⟨t, hba, hbs⟩
        exact ⟨hba.symm, t, hbs⟩

theorem strFind_isSome_iff (pat s : List Char) :
    (strFind pat s).isSome = true ↔ OccursIn pat s := by
  induction s with
  | nil =>
    cases pat with
    | nil =>
      simp only [strFind, List.isEmpty_nil, if_pos, Option.isSome_some,
        true_iff]
      exact ⟨[], [], rfl⟩
    | cons a as =>
      simp only [strFind, List.isEmpty_cons, Bool.false_eq_true, if_false,
        Option.isSome_none, false_iff]
      rintro ⟨t₁, t₂, h⟩
      exact absurd h.symm (by simp)
  | cons c rest ih =>
    simp only [strFind]
    by_cases hpre : pat.isPrefixOf (c :: rest) = true
    · rw [if_pos hpre]
      simp only [Option.isSome_some, true_iff]
      obtain ⟨t, ht⟩ := (isPrefixOf_true_iff _ _).mp hpre
      exact ⟨[], t, by simpa using ht⟩
    · rw [if_neg hpre]
      simp only [Option.isSome_map', ih]
      constructor
      · rintro ⟨t₁, t₂, rfl⟩
        exact ⟨c :: t₁, t₂, rfl⟩
      · rintro ⟨t₁, t₂, h⟩
        cases t₁ with
        | nil =>
          exfalso
          apply hpre
          rw [(isPrefixOf_true_iff _ _)]
          exact ⟨t₂, by simpa using h⟩
        | cons a t₁' =>
          rw [List.cons_append, List.cons_append] at h
          injection h with h1 h2
          exact ⟨t₁', t₂, by simpa using h2⟩

theorem pyIn_iff (pat s : List Char) : pyIn pat s = true ↔ OccursIn pat s :=
  strFind_isSome_iff pat s

theorem pyIn_eq_false_iff (pat s : List Char) :
    pyIn pat s = false ↔ ¬ OccursIn pat s := by
  rw [← pyIn_iff]
  cases pyIn pat s <;> simp

theorem occursIn_single {g : Char} {s : List Char} (h : OccursIn [g] s) :
    g ∈ s := by
  obtain ⟨t₁, t₂, rfl⟩ := h
  simp

theorem pyReplaceFuel_no_occur (pat rep : List Char) :
    ∀ (fuel : Nat) (s : List Char), s.length ≤ fuel → ¬ OccursIn pat s →
      pyReplaceFuel pat rep fuel s = s
  | 0, s, hle, _ => by
    cases s with
    | nil => rfl
    | cons c rest => simp at hle
  | _ + 1, [], _, _ => rfl
  | fuel + 1, c :: rest, hle, hocc => by
    have hcond : (!pat.isEmpty && pat.isPrefixOf (c :: rest)) = false := by
      cases hp : pat with
      | nil => simp
      | cons a as =>
        cases hpre : (a :: as).isPrefixOf (c :: rest) with
        | false => simp [hpre]
        | true =>
          exfalso
          apply hocc
          obtain ⟨t, ht⟩ := (isPrefixOf_true_iff _ _).mp hpre
          exact ⟨[], t, by simpa [hp] using ht⟩
    have hrest : ¬ OccursIn pat rest := by
      rintro ⟨t₁, t₂, rfl⟩
      exact hocc ⟨c :: t₁, t₂, rfl⟩
    have hle' : rest.length ≤ fuel := by
      simp only [List.length_cons] at hle
      omega
    simp only [pyReplaceFuel, hcond, Bool.false_eq_true, if_false,
      List.cons.injEq, true_and]
    exact pyReplaceFuel_no_occur pat rep fuel rest hle' hrest

theorem pyReplace_no_occur (pat rep s : List Char) (h : ¬ OccursIn pat s) :
    pyReplace pat rep s = s :=
  pyReplaceFuel_no_occur pat rep s.length s (Nat.le_refl _) h

theorem splitNodes_no_tag : ∀ (s acc : List Char), '<' ∉ s →
    splitNodes false acc s = [acc.reverse ++ s]
  | [], acc, _ => by simp [splitNodes]
  | c :: rest, acc, h => by
    have hc : ¬ (c = '<') := fun hceq => h (by simp [hceq])
    have hrest : '<' ∉ rest := fun hm => h (List.mem_cons_of_mem c hm)
    simp only [splitNodes, Bool.false_eq_true, if_false, if_neg hc]
    rw [splitNodes_no_tag rest (c :: acc) hrest]
    simp

theorem decodeCharrefsFuel_no_amp :
    ∀ (fuel : Nat) (s : List Char), s.length ≤ fuel → Char.ofNat 38 ∉ s →
      decodeCharrefsFuel fuel s = s
  | 0, s, hle, _ => by
    cases s with
    | nil => rfl
    | cons c rest => simp at hle
  | _ + 1, [], _, _ => rfl
  | fuel + 1, c :: rest, hle, hamp => by
    have hc : ¬ (c = Char.ofNat 38) := fun hceq => hamp (by simp [hceq])
    have hrest : Char.ofNat 38 ∉ rest :=
      fun hm => hamp (List.mem_cons_of_mem c hm)
    have hle' : rest.length ≤ fuel := by
      simp only [List.length_cons] at hle
      omega
    simp only [decodeCharrefsFuel, if_neg hc, List.cons.injEq, true_and]
    exact decodeCharrefsFuel_no_amp fuel rest hle' hrest

theorem decodeCharrefs_no_amp (s : List Char) (h : Char.ofNat 38 ∉ s) :
    decodeCharrefs s = s :=
  decodeCharrefsFuel_no_amp s.length s (Nat.le_refl _) h

theorem get_text_clean (t : List Char) (h : '<' ∉ t)
    (ha : Char.ofNat 38 ∉ t) (hs : pyStrip t = t) : get_text t = t := by
  unfold get_text
  rw [splitNodes_no_tag t [] h]
  simp only [List.reverse_nil, List.nil_append, List.map_cons, List.map_nil,
    decodeCharrefs_no_amp t ha, hs]
  cases t with
  | nil => simp [List.intercalate]
  | cons c rest => simp [List.intercalate]

/-! ### Claim theorems -/

/-- C1: any model reply containing the literal substring
`"No new product found"` anywhere yields an absent result from the reply
parser of `extract_product_info`, regardless of which anchors are present:
the sentinel check takes precedence over anchor parsing. -/
theorem claim_C1_sentinel_precedence (r : List Char)
    (h : OccursIn sentinel r) : parse_llm_reply r = none := by
  have hp : pyIn sentinel r = true := (pyIn_iff _ _).mpr h
  unfold parse_llm_reply
  simp [hp]

/-- C1 witness: the spec's end-to-end scenario reply, which carries both
anchors and the sentinel, parses to an absent result. -/
theorem claim_C1_witness :
    parse_llm_reply
      "New Product Name: Vision Pro 2\nProduct Description: Next-gen headset\nNo new product found".data
      = none :=
  claim_C1_sentinel_precedence _
    ⟨"New Product Name: Vision Pro 2\nProduct Description: Next-gen headset\n".data,
      [], by decide⟩

/-- C2: whenever no product name is extracted (the name anchor is absent, or
the anchored text strips to the empty string), the reply parser returns an
absent result, whatever the description extraction did. -/
theorem claim_C2_missing_name_guard (r : List Char)
    (h : extractName r = none ∨ extractName r = some []) :
    parse_llm_reply r = none := by
  unfold parse_llm_reply
  cases hpy : pyIn sentinel r with
  | true => simp
  | false =>
    rcases h with h | h <;> simp [h]

/-- C2 witness: a reply with only a description anchor parses to an absent
result, not a partial record. -/
theorem claim_C2_witness :
    parse_llm_reply "Product Description: Widget X".data = none :=
  claim_C2_missing_name_guard _ (Or.inl (by decide))

/-- C3: a description longer than 180 characters is truncated to its first
177 characters plus the three-character ellipsis, for a total length of
exactly 180; a description of length at most 180 is unmodified. -/
theorem claim_C3_truncation (d : List Char) :
    (d.length ≤ 180 → truncateDescription d = d) ∧
    (180 < d.length →
      truncateDescription d = d.take 177 ++ "...".data ∧
      (truncateDescription d).length = 180) := by
  constructor
  · intro hle
    unfold truncateDescription
    split
    · next hcond =>
      exfalso
      have := hcond
      simp only [Bool.and_eq_true, decide_eq_true_eq] at this
      omega
    · rfl
  · intro hgt
    have hne : d.isEmpty = false := by
      cases d with
      | nil => simp at hgt
      | cons a l => rfl
    have hcond : (!d.isEmpty && decide (d.length > 180)) = true := by
      simp [hne, hgt]
    constructor
    · unfold truncateDescription
      simp only [gt_iff_lt, hcond, if_true]
    · unfold truncateDescription
      simp only [gt_iff_lt, hcond, if_true, List.length_append,
        List.length_take]
      have h3 : "...".data.length = 3 := rfl
      rw [h3]
      omega

/-- C3 witness: a 181-character description is truncated to 177 characters
plus the ellipsis (total 180), and a short one is unmodified. -/
theorem claim_C3_witness :
    truncateDescription (List.replicate 181 'a')
        = (List.replicate 181 'a').take 177 ++ "...".data ∧
    (truncateDescription (List.replicate 181 'a')).length = 180 ∧
    truncateDescription "ok".data = "ok".data := by
  obtain ⟨h1, h2⟩ :=
    (claim_C3_truncation (List.replicate 181 'a')).2 (by simp)
  exact ⟨h1, h2, (claim_C3_truncation "ok".data).1 (by decide)⟩

/-- C4: called with an absent or empty filing text, `extract_product_info`
returns an absent result and the model endpoint is never invoked (the
invocation flag is `false`), whatever the model oracle would have replied. -/
theorem claim_C4_empty_input_guard (llmOutcome : Except Unit (List Char)) :
    extract_product_info none llmOutcome = (none, false) ∧
    extract_product_info (some []) llmOutcome = (none, false) :=
  ⟨rfl, rfl⟩

/-- C10: a reply with a non-empty extracted product name but an absent (or
empty-stripping) description yields a record whose description field is the
empty string — not an absent record. -/
theorem claim_C10_empty_description_field (r n : List Char)
    (hs : pyIn sentinel r = false) (hn : extractName r = some n)
    (hne : n ≠ []) (hd : extractDesc r = none ∨ extractDesc r = some []) :
    parse_llm_reply r = some ⟨n, []⟩ := by
  have hni : n.isEmpty = false := by
    cases n with
    | nil => exact absurd rfl hne
    | cons a l => rfl
  unfold parse_llm_reply
  rcases hd with h | h <;> simp [hs, hn, hni, descOrEmpty, h]

/-- C10 witness: a reply carrying only a product name parses to a record
with an empty description field. -/
theorem claim_C10_witness :
    parse_llm_reply "New Product Name: Widget".data
      = some ⟨"Widget".data, []⟩ :=
  claim_C10_empty_description_field _ _ (by decide) (by decide) (by decide)
    (Or.inl (by decide))

/-- C9 (amended): the markup-to-text normalization is NOT idempotent in
general (see the counterexample); but it leaves unchanged — and hence acts
idempotently on — any text that is already clean: free of markup (`'<'`) and
of character references (`'&'`), free of the four replaced glyphs and of the
checkbox pattern, and stripped of surrounding whitespace. -/
theorem claim_C9_normalization_clean_fixed_point (t : List Char)
    (h1 : '<' ∉ t) (ha : Char.ofNat 38 ∉ t) (h2 : glyphNbsp ∉ t)
    (h3 : glyphThin ∉ t) (h4 : glyphEn ∉ t) (h5 : glyphEm ∉ t)
    (h6 : pyIn boxPat t = false) (h7 : pyStrip t = t) :
    extract_section t = t ∧
    extract_section (extract_section t) = extract_section t := by
  have hfix : extract_section t = t := by
    unfold extract_section
    rw [get_text_clean t h1 ha h7]
    rw [pyReplace_no_occur [glyphNbsp] [' '] t
      (fun ho => h2 (occursIn_single ho))]
    rw [pyReplace_no_occur [glyphThin] [' '] t
      (fun ho => h3 (occursIn_single ho))]
    rw [pyReplace_no_occur [glyphEn] [' '] t
      (fun ho => h4 (occursIn_single ho))]
    rw [pyReplace_no_occur [glyphEm] [' '] t
      (fun ho => h5 (occursIn_single ho))]
    exact pyReplace_no_occur boxPat [' '] t ((pyIn_eq_false_iff _ _).mp h6)
  exact ⟨hfix, by rw [hfix]; exact hfix⟩

/-- C9 witness: plain already-normalized text is a fixed point of the
normalization, so a second application changes nothing. -/
theorem claim_C9_witness :
    extract_section "hello world".data = "hello world".data ∧
    extract_section (extract_section "hello world".data)
      = extract_section "hello world".data :=
  claim_C9_normalization_clean_fixed_point "hello world".data (by decide)
    (by decide) (by decide) (by decide) (by decide) (by decide) (by decide)
    (by decide)

/-- C9 counterexample: the claim as stated is false — the checkbox pattern
`" ☐ "` overlaps with itself, so `"x ☐ ☐ x"` normalizes to `"x ☐ x"` and
normalizes again to `"x x"`: the second application differs from the
first. -/
theorem claim_C9_counterexample :
    extract_section (extract_section "x ☐ ☐ x".data)
      ≠ extract_section "x ☐ ☐ x".data := by
  decide

theorem map_add_shift (l : List Nat) (k : Nat) :
    (l.map (· + 1)).map (· + k) = l.map (· + (k + 1)) := by
  induction l with
  | nil => rfl
  | cons a l ih =>
    simp only [List.map_cons, ih, List.cons.injEq, and_true]
    omega

theorem map_add_zero (l : List Nat) : l.map (· + 0) = l := by
  induction l with
  | nil => rfl
  | cons a l ih => simp [ih]

theorem enumFilter_eq (k : Nat) (fs : List String) :
    ((List.enumFrom k fs).filter (fun p => p.2 == "8-K")).map Prod.fst
      = (matchIdx fs).map (· + k) := by
  induction fs generalizing k with
  | nil => simp [matchIdx]
  | cons x xs ih =>
    simp only [List.enumFrom_cons, List.filter_cons, matchIdx]
    cases h8 : (x == "8-K") with
    | true =>
      simp only [h8, if_true, List.map_cons, ih (k + 1), Nat.zero_add,
        map_add_shift]
    | false =>
      simp only [h8, Bool.false_eq_true, if_false, ih (k + 1), map_add_shift]

theorem formIndices_eq (fs : List String) : formIndices fs = matchIdx fs := by
  unfold formIndices
  rw [show List.enum fs = List.enumFrom 0 fs from rfl, enumFilter_eq 0 fs]
  exact map_add_zero _

theorem getAll_map_succ (x : String) (xs : List String) (is' : List Nat) :
    getAll (x :: xs) (is'.map (· + 1)) = getAll xs is' := by
  induction is' with
  | nil => rfl
  | cons i is'' ih =>
    simp only [List.map_cons, getAll, List.get?_cons_succ, ih]

theorem selectMatching_cons_pos {x : String} (xs ds' : List String)
    (d : String) (h8 : (x == "8-K") = true) :
    selectMatching (x :: xs) (d :: ds') = d :: selectMatching xs ds' := by
  simp [selectMatching, List.filter_cons, h8]

theorem selectMatching_cons_neg {x : String} (xs ds' : List String)
    (d : String) (h8 : (x == "8-K") = false) :
    selectMatching (x :: xs) (d :: ds') = selectMatching xs ds' := by
  simp [selectMatching, List.filter_cons, h8]

theorem getAll_matchIdx (fs : List String) :
    ∀ ds : List String, fs.length = ds.length →
      getAll ds (matchIdx fs) = some (selectMatching fs ds) := by
  induction fs with
  | nil =>
    intro ds _
    simp [matchIdx, getAll, selectMatching]
  | cons x xs ih =>
    intro ds h
    cases ds with
    | nil => simp at h
    | cons d ds' =>
      have h' : xs.length = ds'.length := by simpa using h
      cases h8 : (x == "8-K") with
      | true =>
        rw [selectMatching_cons_pos xs ds' d h8]
        simp only [matchIdx, h8, if_true, getAll, List.get?_cons_zero,
          getAll_map_succ, ih ds' h']
      | false =>
        rw [selectMatching_cons_neg xs ds' d h8]
        simp only [matchIdx, h8, Bool.false_eq_true, if_false,
          getAll_map_succ, ih ds' h']

theorem zip_selectMatching (fs : List String) :
    ∀ ds ans : List String, fs.length = ds.length → fs.length = ans.length →
      (selectMatching fs ds).zip (selectMatching fs ans)
        = ((fs.zip (ds.zip ans)).filter (fun t => t.1 == "8-K")).map
            Prod.snd := by
  induction fs with
  | nil =>
    intro ds ans _ _
    simp [selectMatching]
  | cons x xs ih =>
    intro ds ans h1 h2
    cases ds with
    | nil => simp at h1
    | cons d ds' =>
      cases ans with
      | nil => simp at h2
      | cons a ans' =>
        have h1' : xs.length = ds'.length := by simpa using h1
        have h2' : xs.length = ans'.length := by simpa using h2
        cases h8 : (x == "8-K") with
        | true =>
          rw [selectMatching_cons_pos xs ds' d h8,
            selectMatching_cons_pos xs ans' a h8]
          simp only [List.zip_cons_cons, List.filter_cons, h8, if_true,
            List.map_cons, ih ds' ans' h1' h2']
        | false =>
          rw [selectMatching_cons_neg xs ds' d h8,
            selectMatching_cons_neg xs ans' a h8]
          simp only [List.zip_cons_cons, List.filter_cons, h8,
            Bool.false_eq_true, if_false, ih ds' ans' h1' h2']

theorem length_filter3 (fs : List String) :
    ∀ ds ans : List String, fs.length = ds.length → fs.length = ans.length →
      (((fs.zip (ds.zip ans)).filter (fun t => t.1 == "8-K")).map
          Prod.snd).length
        = (fs.filter (fun f => f == "8-K")).length := by
  induction fs with
  | nil =>
    intro ds ans _ _
    simp
  | cons x xs ih =>
    intro ds ans h1 h2
    cases ds with
    | nil => simp at h1
    | cons d ds' =>
      cases ans with
      | nil => simp at h2
      | cons a ans' =>
        have h1' : xs.length = ds'.length := by simpa using h1
        have h2' : xs.length = ans'.length := by simpa using h2
        cases h8 : (x == "8-K") with
        | true =>
          simp only [List.zip_cons_cons, List.filter_cons, h8, if_true,
            List.map_cons, List.length_cons, ih ds' ans' h1' h2']
        | false =>
          simp only [List.zip_cons_cons, List.filter_cons, h8,
            Bool.false_eq_true, if_false, ih ds' ans' h1' h2']

/-- C5: on a well-formed index response (the three parallel arrays have equal
length, with `N` form entries of which `M` equal `"8-K"`), `get_8k_filings`
returns exactly the `M` (filing date, accession number) pairs of the matching
entries, preserving the relative order of the source arrays; all other form
types are discarded. -/
theorem claim_C5_form_filtering (fs ds ans : List String)
    (h1 : fs.length = ds.length) (h2 : fs.length = ans.length) :
    get_8k_filings (.ok ⟨some ⟨some ⟨some fs, some ds, some ans⟩⟩⟩)
      = ((fs.zip (ds.zip ans)).filter (fun t => t.1 == "8-K")).map Prod.snd ∧
    (get_8k_filings (.ok ⟨some ⟨some ⟨some fs, some ds, some ans⟩⟩⟩)).length
      = (fs.filter (fun f => f == "8-K")).length := by
  have hred : get_8k_filings_body (.ok ⟨some ⟨some ⟨some fs, some ds, some ans⟩⟩⟩)
      = (if (formIndices fs).isEmpty then Except.ok []
         else
           match getAll ds (formIndices fs), getAll ans (formIndices fs) with
           | some ds', some ans' => Except.ok (ds'.zip ans')
           | _, _ => Except.error ()) := rfl
  have hmain : get_8k_filings (.ok ⟨some ⟨some ⟨some fs, some ds, some ans⟩⟩⟩)
      = ((fs.zip (ds.zip ans)).filter (fun t => t.1 == "8-K")).map Prod.snd := by
    unfold get_8k_filings
    rw [hred, formIndices_eq]
    by_cases hidx : (matchIdx fs).isEmpty = true
    · have hnil : matchIdx fs = [] := by simpa using hidx
      have hds := getAll_matchIdx fs ds h1
      have hans := getAll_matchIdx fs ans h2
      rw [hnil] at hds hans
      have hds' : selectMatching fs ds = [] := by
        have : (some [] : Option (List String)) = some (selectMatching fs ds) := hds
        simpa using this.symm
      have hans' : selectMatching fs ans = [] := by
        have : (some [] : Option (List String)) = some (selectMatching fs ans) := hans
        simpa using this.symm
      have hz := zip_selectMatching fs ds ans h1 h2
      rw [hds', hans'] at hz
      rw [if_pos hidx, ← hz]
      rfl
    · have hidx' : (matchIdx fs).isEmpty = false := by
        cases hval : (matchIdx fs).isEmpty with
        | true => exact absurd hval hidx
        | false => rfl
      rw [if_neg (by simp [hidx'])]
      rw [getAll_matchIdx fs ds h1, getAll_matchIdx fs ans h2]
      exact zip_selectMatching fs ds ans h1 h2
  refine ⟨hmain, ?_⟩
  rw [hmain]
  exact length_filter3 fs ds ans h1 h2

/-- C5 witness: three entries of which two are `"8-K"` yield exactly those
two (date, accession) pairs in order. -/
theorem claim_C5_witness :
    get_8k_filings (.ok ⟨some ⟨some ⟨some ["8-K", "10-Q", "8-K"],
        some ["d1", "d2", "d3"], some ["a1", "a2", "a3"]⟩⟩⟩)
      = [("d1", "a1"), ("d3", "a3")] := by
  rw [(claim_C5_form_filtering ["8-K", "10-Q", "8-K"] ["d1", "d2", "d3"]
    ["a1", "a2", "a3"] (by decide) (by decide)).1]
  decide

/-- C6: the driver caps each company at `filings[:5]`: with more than 5
qualifying filings exactly the first 5 are selected for processing, in their
native order (the selection is a length-5 initial segment); with at most 5,
all of them are selected. -/
theorem claim_C6_cap_enforcement (fs : List FilingRef) :
    (fs.length ≤ 5 → selectedFilings fs = fs) ∧
    (5 < fs.length →
      (selectedFilings fs).length = 5 ∧ ∃ t, fs = selectedFilings fs ++ t) := by
  constructor
  · intro h
    exact List.take_of_length_le h
  · intro h
    constructor
    · unfold selectedFilings
      rw [List.length_take]
      omega
    · exact ⟨fs.drop 5, (List.take_append_drop 5 fs).symm⟩

/-- C6 witness: a 2-element list is kept whole; a 6-element list is cut to
its first 5. -/
theorem claim_C6_witness :
    selectedFilings [("d1", "a1"), ("d2", "a2")] = [("d1", "a1"), ("d2", "a2")] ∧
    (selectedFilings [("d1", "a1"), ("d2", "a2"), ("d3", "a3"), ("d4", "a4"),
        ("d5", "a5"), ("d6", "a6")]).length = 5 :=
  ⟨(claim_C6_cap_enforcement _).1 (by decide),
    ((claim_C6_cap_enforcement _).2 (by decide)).1⟩

/-- C7: every failure mode of the index fetch — a raised request/decoding
exception, a response without the `'filings'` key, one without the
`'recent'` key, or any exception inside the `try` body — makes
`get_8k_filings` return the empty list instead of propagating an error. -/
theorem claim_C7_index_error_handling :
    get_8k_filings (.error ()) = [] ∧
    (∀ fd : FilingsData, fd.filings = none → get_8k_filings (.ok fd) = []) ∧
    (∀ (fd : FilingsData) (fl : Filings), fd.filings = some fl →
      fl.recent = none → get_8k_filings (.ok fd) = []) ∧
    (∀ resp : Except Unit FilingsData,
      get_8k_filings_body resp = .error () → get_8k_filings resp = []) := by
  refine ⟨rfl, ?_, ?_, ?_⟩
  · intro fd h
    cases fd with
    | mk filings =>
      cases h
      rfl
  · intro fd fl h1 h2
    cases fd with
    | mk filings =>
      cases fl with
      | mk recent =>
        simp only at h1
        cases h1
        cases h2
        rfl
  · intro resp h
    unfold get_8k_filings
    rw [h]

/-- C7 witness: a missing `'filings'` key, a missing `'recent'` key, and a
raised exception each give the empty list. -/
theorem claim_C7_witness :
    get_8k_filings (.ok ⟨none⟩) = [] ∧
    get_8k_filings (.ok ⟨some ⟨none⟩⟩) = [] ∧
    get_8k_filings (.error ()) = [] :=
  ⟨claim_C7_index_error_handling.2.1 ⟨none⟩ rfl,
    claim_C7_index_error_handling.2.2.1 ⟨some ⟨none⟩⟩ ⟨none⟩ rfl rfl,
    claim_C7_index_error_handling.2.2.2 (.error ()) rfl⟩

theorem parse_some_name {r : List Char} {rec : ProductRecord}
    (h : parse_llm_reply r = some rec) : rec.new_product ≠ [] := by
  unfold parse_llm_reply at h
  by_cases hpy : pyIn sentinel r = true
  · rw [if_pos hpy] at h
    exact absurd h (by simp)
  · rw [if_neg hpy] at h
    cases hx : extractName r with
    | none =>
      rw [hx] at h
      exact absurd h (by simp)
    | some n =>
      rw [hx] at h
      have h2 : (if (!n.isEmpty) = true then
          some (⟨n, descOrEmpty (extractDesc r)⟩ : ProductRecord)
          else none) = some rec := h
      by_cases hni : (!n.isEmpty) = true
      · rw [if_pos hni] at h2
        injection h2 with h'
        rw [← h']
        simpa using hni
      · rw [if_neg hni] at h2
        exact absurd h2 (by simp)

theorem extractFor_some {gc : CompanyRef → FilingRef → Option (List Char)}
    {llm : CompanyRef → FilingRef → Except Unit (List Char)}
    {c : CompanyRef} {f : FilingRef} {rec : ProductRecord}
    (h : extractFor gc llm c f = some rec) : rec.new_product ≠ [] := by
  unfold extractFor extract_product_info at h
  by_cases hcf : contentFalsy (gc c f) = true
  · rw [if_pos hcf] at h
    simp at h
  · rw [if_neg hcf] at h
    cases ho : llm c f with
    | error e =>
      rw [ho] at h
      simp at h
    | ok r =>
      rw [ho] at h
      simp only at h
      exact parse_some_name h

theorem foldl_processFiling (gc : CompanyRef → FilingRef → Option (List Char))
    (llm : CompanyRef → FilingRef → Except Unit (List Char)) (c : CompanyRef) :
    ∀ (fs : List FilingRef) (rows : List ResultRow),
      fs.foldl (processFiling gc llm c) rows
        = rows ++ fs.filterMap (fun f => (extractFor gc llm c f).map (mkRow c f))
  | [], rows => by simp
  | f :: fs, rows => by
    simp only [List.foldl_cons, List.filterMap_cons]
    cases hx : extractFor gc llm c f with
    | none =>
      simp only [Option.map_none', processFiling, hx]
      exact foldl_processFiling gc llm c fs rows
    | some rec =>
      simp only [Option.map_some', processFiling, hx]
      rw [foldl_processFiling gc llm c fs (rows ++ [mkRow c f rec])]
      simp

theorem foldl_processCompany (gf : CompanyRef → List FilingRef)
    (gc : CompanyRef → FilingRef → Option (List Char))
    (llm : CompanyRef → FilingRef → Except Unit (List Char)) :
    ∀ (cs : List CompanyRef) (rows : List ResultRow),
      cs.foldl (processCompany gf gc llm) rows
        = rows ++ cs.flatMap (fun c =>
            (selectedFilings (gf c)).filterMap
              (fun f => (extractFor gc llm c f).map (mkRow c f)))
  | [], rows => by simp
  | c :: cs, rows => by
    simp only [List.foldl_cons, List.flatMap_cons]
    rw [show processCompany gf gc llm rows c
        = (selectedFilings (gf c)).foldl (processFiling gc llm c) rows from rfl]
    rw [foldl_processFiling gc llm c (selectedFilings (gf c)) rows]
    rw [foldl_processCompany gf gc llm cs _]
    simp

/-- C8: the accumulated result table is exactly the rows of the successful
extractions, in discovery order (company order × filing order): a row exists
iff extraction for its (company, filing) pair yielded a record, every such
record has a non-empty product name, and the table is append-only — folding
further companies only extends the accumulated rows on the right. -/
theorem claim_C8_result_rows_iff (gf : CompanyRef → List FilingRef)
    (gc : CompanyRef → FilingRef → Option (List Char))
    (llm : CompanyRef → FilingRef → Except Unit (List Char))
    (companies : List CompanyRef) :
    runDriver gf gc llm companies
      = companies.flatMap (fun c =>
          (selectedFilings (gf c)).filterMap
            (fun f => (extractFor gc llm c f).map (mkRow c f))) ∧
    (∀ row ∈ runDriver gf gc llm companies, row.new_product ≠ []) ∧
    (∀ (rows : List ResultRow) (cs : List CompanyRef), ∃ t,
      cs.foldl (processCompany gf gc llm) rows = rows ++ t) := by
  have hmain : runDriver gf gc llm companies
      = companies.flatMap (fun c =>
          (selectedFilings (gf c)).filterMap
            (fun f => (extractFor gc llm c f).map (mkRow c f))) := by
    unfold runDriver
    rw [foldl_processCompany gf gc llm companies []]
    simp
  refine ⟨hmain, ?_, ?_⟩
  · intro row hrow
    rw [hmain] at hrow
    simp only [List.mem_flatMap, List.mem_filterMap] at hrow
    obtain ⟨c, _, f, _, hx⟩ := hrow
    cases he : extractFor gc llm c f with
    | none =>
      rw [he] at hx
      simp at hx
    | some rec =>
      rw [he] at hx
      have hr : mkRow c f rec = row := by simpa using hx
      rw [← hr]
      exact extractFor_some he
  · intro rows cs
    exact ⟨_, foldl_processCompany gf gc llm cs rows⟩

/-- C8 witness: with the fixture oracles, the single extracted record shows
up as a row with a non-empty product name. -/
theorem claim_C8_witness :
    (⟨"Apple Inc.", "AAPL", "2024-01-01", "Widget".data, "Small".data⟩ :
        ResultRow).new_product ≠ [] :=
  (claim_C8_result_rows_iff wFilings wContent wLLM [wCompany]).2.1 _ (by decide)
